import Mathlib

/-!
Shallow embedding of the PXN CB1 HID monitor core (TypeScript) in Lean 4:
the change detector, control catalog matching and parse pipeline of
`src/parsers/control-config-parser.ts`, the debounce / edge-trigger state
machine of `src/hid/device-manager.ts`, and the action routing and macro
execution of `src/actions/index.ts`, together with theorems settling the
specification claims about them.

Bytes are modelled as `Nat` (the TypeScript code reads them out of a
`Buffer` as JavaScript numbers and only compares and prints them), reports
as `List Nat`, and JavaScript strings as Lean `String` (all strings involved
are ASCII, so UTF-16 code-unit operations agree with `Char`-level ones).
-/

namespace PxnCb1

/-! ## Change detector (`ControlConfigParser.detectChanges`) -/

/-- The change token `"byte" + (i+1) + ":" + old + "->" + new` pushed by
`detectChanges` (template literal over decimal number printing). -/
def deltaToken (idx oldV newV : Nat) : String :=
  "byte" ++ toString idx ++ ":" ++ toString oldV ++ "->" ++ toString newV

/-- The loop body of `detectChanges`: walk both snapshots in step (hence over
`min` of the lengths), index `i` counting from `i0`, pushing a token at each
index where the bytes differ. -/
def detectChangesAux : List Nat → List Nat → Nat → List String
  | p :: ps, c :: cs, i =>
      (if p ≠ c then [deltaToken (i + 1) p c] else []) ++ detectChangesAux ps cs (i + 1)
  | _, _, _ => []

/-- `ControlConfigParser.detectChanges(previous, current)`: byte-by-byte
comparison over `min(previous.length, current.length)`, emitting
`byte{i+1}:{old}->{new}` tokens in ascending index order. -/
def detectChanges (previous current : List Nat) : List String :=
  detectChangesAux previous current 0

/-! ## Signature matching (`ControlConfigParser.changesMatch`) -/

/-- Lexicographic code-unit comparison of character lists, the order JavaScript
uses to compare strings (`<`); on ASCII data code units coincide with code
points, i.e. with `Char` values. -/
def lexLe : List Char → List Char → Bool
  | [], _ => true
  | _ :: _, [] => false
  | x :: xs, y :: ys => if x = y then lexLe xs ys else decide (x < y)

/-- String comparison as a relation, via the underlying character lists. -/
def tokenLe (s t : String) : Prop :=
  lexLe s.data t.data = true

instance : DecidableRel tokenLe := fun s t =>
  inferInstanceAs (Decidable (lexLe s.data t.data = true))

/-- `[...changes].sort()`: JavaScript default sort on an array of strings
compares strings by UTF-16 code units; the result of any comparison sort under
a linear order is the unique sorted permutation, here realised by insertion
sort under `tokenLe`. -/
def sortTokens (l : List String) : List String :=
  l.insertionSort tokenLe

/-- `ControlConfigParser.changesMatch(configChanges, actualChanges)`:
reject on differing lengths, otherwise sort both copies and require pairwise
equality (`sortedConfig.every((change, index) => change === sortedActual[index])`). -/
def changesMatch (configChanges actualChanges : List String) : Bool :=
  if configChanges.length ≠ actualChanges.length then false
  else
    let sortedConfig := sortTokens configChanges
    let sortedActual := sortTokens actualChanges
    (List.range sortedConfig.length).all fun i =>
      sortedConfig.getD i "" == sortedActual.getD i ""

/-! ## Catalog model (`ControlConfig` interface) -/

/-- A catalog entry (`ControlChange` interface): the change signature plus
naming metadata. -/
structure ControlChange where
  changes : List String
  default_name : String
  user_name : Option String := none
  type : Option String := none
deriving Repr, DecidableEq

/-- Value sitting under a toggle id: either the `type` string field or an
actual control entry (the TS type is `Record<string, ControlChange> & \x7b type: string \x7d`,
iterated with `Object.entries` and a `typeof`/`in` guard). -/
inductive ToggleVal where
  | typeStr (s : String)
  | ctrl (c : ControlChange)
deriving Repr, DecidableEq

/-- `config.controls`: association lists in `Object.entries` iteration order. -/
structure Controls where
  buttons : List (String × ControlChange)
  knobs : List (String × List (String × ControlChange))
  toggles : List (String × List (String × ToggleVal))
  joystick : List (String × ControlChange)
deriving Repr, DecidableEq

/-- The knob entries in iteration order (outer then inner `Object.entries`). -/
def knobEntries (cfg : Controls) : List ControlChange :=
  (cfg.knobs.map (fun kv => kv.2.map (·.2))).flatten

/-- The toggle entries in iteration order, skipping the `type` key and any
non-object value, as the toggle loop does. -/
def toggleEntries (cfg : Controls) : List ControlChange :=
  (cfg.toggles.map (fun kv => kv.2.filterMap (fun av =>
    if av.1 = "type" then none
    else match av.2 with
      | ToggleVal.ctrl c => some c
      | ToggleVal.typeStr _ => none))).flatten

/-- Every catalog entry the matcher can consult, in its search order. -/
def catalogEntries (cfg : Controls) : List ControlChange :=
  cfg.buttons.map (·.2) ++ knobEntries cfg ++ toggleEntries cfg
    ++ cfg.joystick.map (·.2)

/-- `ControlConfigParser.matchChanges(changes)`: first match wins, searching
buttons, then knobs, then toggles (skipping the `type` field), then joystick. -/
def matchChanges (cfg : Controls) (changes : List String) : Option ControlChange :=
  match (cfg.buttons.map (·.2)).find? (fun b => changesMatch b.changes changes) with
  | some b => some b
  | none =>
    match (knobEntries cfg).find? (fun k => changesMatch k.changes changes) with
    | some k => some k
    | none =>
      match (toggleEntries cfg).find? (fun t => changesMatch t.changes changes) with
      | some t => some t
      | none => (cfg.joystick.map (·.2)).find? (fun j => changesMatch j.changes changes)

/-! ## Button index lookup (`ControlConfigParser.findButtonIndexForControl`) -/

/-- Value of a digit character. -/
def digitVal (c : Char) : Nat := c.toNat - 48

/-- Decimal value of a digit string. -/
def digitsVal (cs : List Char) : Nat :=
  cs.foldl (fun a c => a * 10 + digitVal c) 0

/-- JavaScript `parseInt(s)` restricted to the decimal case (the config keys
are decimal digit strings): skip leading whitespace, optional sign, then read
leading digits; `none` models `NaN` (no digits found). -/
def jsParseInt (s : String) : Option Int :=
  let core := fun (l : List Char) (sign : Int) =>
    let ds := l.takeWhile (fun c => c.isDigit)
    if ds.isEmpty then none else some (sign * (digitsVal ds : Int))
  match s.data.dropWhile (fun c => c.isWhitespace) with
  | '-' :: rest => core rest (-1)
  | '+' :: rest => core rest 1
  | cs => core cs 1

/-- `ControlConfigParser.findButtonIndexForControl(control)`: first button
entry whose signature matches the control's signature yields
`parseInt(buttonId)` (`none` = `NaN`); otherwise `-1`. -/
def findButtonIndexForControl (buttons : List (String × ControlChange))
    (control : ControlChange) : Option Int :=
  match buttons with
  | [] => some (-1)
  | (id, b) :: rest =>
    if changesMatch b.changes control.changes then jsParseInt id
    else findButtonIndexForControl rest control

/-! ## The parse pipeline (`ControlConfigParser.parse`) -/

/-- `ParsedEvent` (from `src/types/index.ts`); `timestamp` is the `Date.now()`
value, passed in as a parameter. -/
structure ParsedEvent where
  timestamp : Nat
  buttonStates : List Bool
  rawData : List Nat
  deviceId : String
deriving Repr, DecidableEq

/-- `ControlConfigParser.parse(data)`, with the mutable `previousState` field
made an explicit argument and the updated `previousState` returned alongside
the event. Non-6-byte reports return an all-false event without touching
`previousState`; otherwise changes are detected against the previous snapshot,
matched against the catalog, the snapshot is updated, and the matched
control's button index (when in `[0, 8)`) is set in a fresh 8-slot array. -/
def parse (cfg : Controls) (previousState : List Nat) (now : Nat)
    (data : List Nat) : List Nat × ParsedEvent :=
  let currentState := data
  if currentState.length ≠ 6 then
    (previousState,
      { timestamp := now, buttonStates := List.replicate 8 false,
        rawData := data, deviceId := "pxn-cb1" })
  else
    let changes := detectChanges previousState currentState
    let matchedControl := matchChanges cfg changes
    let buttonStates :=
      match matchedControl with
      | some control =>
        match findButtonIndexForControl cfg.buttons control with
        | some idx =>
          if 0 ≤ idx ∧ idx < 8 then (List.replicate 8 false).set idx.toNat true
          else List.replicate 8 false
        | none => List.replicate 8 false
      | none => List.replicate 8 false
    (currentState,
      { timestamp := now, buttonStates := buttonStates,
        rawData := data, deviceId := "pxn-cb1" })

/-! ## Device manager (`src/hid/device-manager.ts`) -/

/-- The loop of `HIDDeviceManager.processButtonStates`: indices `i` below
`max` of the two lengths where `currentStates[i] || false` is true and
`previousStates[i] || false` is false — exactly the indices for which
`triggerButtonAction(i, event)` is awaited, in ascending order. -/
def pressedIndices (previousStates currentStates : List Bool) : List Nat :=
  (List.range (max currentStates.length previousStates.length)).filter
    (fun i => currentStates.getD i false && !(previousStates.getD i false))

/-- `HIDDeviceManager.processButtonStates(event)`: returns the button indices
whose actions are triggered and the new `lastButtonStates`
(`[...currentStates]`). -/
def processButtonStates (lastButtonStates : List Bool) (event : ParsedEvent) :
    List Nat × List Bool :=
  (pressedIndices lastButtonStates event.buttonStates, event.buttonStates)

/-- The mutable fields of `HIDDeviceManager` relevant to report handling:
the parser's rolling snapshot, `lastButtonStates`, and the debounce timer
modelled as the pending scheduled callback (`some event` while a
`setTimeout(() => processButtonStates(event), debounce)` is outstanding). -/
structure DMState where
  parserPrev : List Nat
  lastButtonStates : List Bool
  pending : Option ParsedEvent
deriving Repr, DecidableEq

/-- `HIDDeviceManager.handleDeviceData(data)`: parse the report, clear any
pending debounce timer, and schedule a fresh timer carrying the event just
parsed. No notification fires here. -/
def handleDeviceData (cfg : Controls) (s : DMState) (now : Nat)
    (data : List Nat) : DMState :=
  let pr := parse cfg s.parserPrev now data
  { parserPrev := pr.1, lastButtonStates := s.lastButtonStates,
    pending := some pr.2 }

/-- The debounce timer elapsing: the scheduled `processButtonStates(event)`
callback runs (returning the fired event), `lastButtonStates` is updated, and
the timer is no longer pending. With no timer outstanding nothing happens. -/
def fireTimer (s : DMState) : DMState × List ParsedEvent :=
  match s.pending with
  | some ev =>
    ({ parserPrev := s.parserPrev,
       lastButtonStates := (processButtonStates s.lastButtonStates ev).2,
       pending := none }, [ev])
  | none => (s, [])

/-- One scheduler step: a report arrives, or the debounce timer elapses. -/
inductive DMStep where
  | recv (now : Nat) (data : List Nat)
  | fire
deriving Repr, DecidableEq

/-- Run a sequence of scheduler steps, collecting the events delivered to
`processButtonStates` (the fired notifications) in order. -/
def dmRun (cfg : Controls) (s : DMState) : List DMStep → DMState × List ParsedEvent
  | [] => (s, [])
  | DMStep.recv now data :: rest => dmRun cfg (handleDeviceData cfg s now data) rest
  | DMStep.fire :: rest =>
    let f := fireTimer s
    let r := dmRun cfg f.1 rest
    (r.1, f.2 ++ r.2)

/-- The parser snapshot after a run of reports `(now, data)` has been parsed
in sequence. -/
def foldPrev (cfg : Controls) (prev : List Nat) (rs : List (Nat × List Nat)) : List Nat :=
  rs.foldl (fun p r => (parse cfg p r.1 r.2).1) prev

/-! ## Action routing and macros (`src/actions/index.ts`) -/

/-- The three runner classes, identified by their `name` field. -/
inductive RunnerName where
  | logR
  | shellR
  | macroR
deriving Repr, DecidableEq

/-- The shell-command heuristic shared by both routing methods:
`action.includes(' ') || action.includes('/') || action.includes('\\')`. -/
def isShellish (action : String) : Bool :=
  action.data.contains ' ' || action.data.contains '/' || action.data.contains '\\'

/-- `action.startsWith('macro:')`. -/
def isMacroSpec (action : String) : Bool :=
  "macro:".data.isPrefixOf action.data

/-- `action.substring(6)`: drop the `macro:` head (ASCII, so code units =
characters). -/
def macroBody (action : String) : String :=
  String.mk (action.data.drop 6)

/-- JavaScript `String.prototype.split` with a one-character separator
(`''.split(sep)` is `['']`). -/
def splitChar (sep : Char) : List Char → List (List Char)
  | [] => [[]]
  | c :: rest =>
    match splitChar sep rest with
    | [] => [[]]
    | h :: t => if c = sep then [] :: h :: t else (c :: h) :: t

/-- `remainder.split('|')`. -/
def splitOnBar (s : String) : List String :=
  (splitChar '|' s.data).map String.mk

/-- The runners registered by the `ActionRegistry` constructor, in
registration order. -/
def registryRunners : List RunnerName :=
  [RunnerName.logR, RunnerName.shellR, RunnerName.macroR]

/-- The runner list the registry passes to `MacroActionRunner`'s constructor:
only the log and shell runners. -/
def macroSubRunners : List RunnerName :=
  [RunnerName.logR, RunnerName.shellR]

/-- `ActionRegistry.findRunnerForAction(action)`: macro prefix first, then the
shell heuristic, else the log runner, each looked up in the registered list. -/
def registryFindRunnerForAction (runners : List RunnerName) (action : String) :
    Option RunnerName :=
  if isMacroSpec action then runners.find? (· == RunnerName.macroR)
  else if isShellish action then runners.find? (· == RunnerName.shellR)
  else runners.find? (· == RunnerName.logR)

/-- `MacroActionRunner.findRunnerForAction(action)`: only the shell heuristic,
else the log runner — no macro-prefix case. -/
def macroFindRunnerForAction (runners : List RunnerName) (action : String) :
    Option RunnerName :=
  if isShellish action then runners.find? (· == RunnerName.shellR)
  else runners.find? (· == RunnerName.logR)

/-- Outcome of awaiting `runner.execute(subAction, context)`: the promise
resolves, or rejects with an error message. `ActionRunner` is an interface, so
the behaviour is a parameter of the model; the concrete `ShellActionRunner`
always resolves (it catches subprocess failures itself). -/
inductive ExecOutcome where
  | ok
  | threw (msg : String)
deriving Repr, DecidableEq

/-- Result of `MacroActionRunner.execute`: which sub-action strings had their
runner's `execute` invoked (in order), whether the surrounding `catch` logged
an error, and whether the returned promise rejected. -/
structure MacroResult where
  executed : List String
  errorLogged : Bool
  rejected : Bool
deriving Repr, DecidableEq

/-- The `for` loop inside `MacroActionRunner.execute`, running under its
enclosing `try`: each sub-action is routed via `macroFindRunnerForAction` and
executed; a missing runner only logs a warning and continues; a rejection
propagates out of the loop (to the `catch`), abandoning the remaining
sub-actions. Returns the invoked sub-actions and the escaped error, if any. -/
def runMacroSteps (subExec : RunnerName → String → ExecOutcome)
    (runners : List RunnerName) : List String → List String × Option String
  | [] => ([], none)
  | a :: rest =>
    match macroFindRunnerForAction runners a with
    | some r =>
      match subExec r a with
      | ExecOutcome.ok =>
        let t := runMacroSteps subExec runners rest
        (a :: t.1, t.2)
      | ExecOutcome.threw m => ([a], some m)
    | none =>
      runMacroSteps subExec runners rest

/-- `MacroActionRunner.execute(action, context)`: under the `try`, a
non-`macro:` spec throws (caught and logged); otherwise the remainder after
`macro:` is split on `|` and the loop runs; any error reaching the `catch` is
logged; the promise never rejects. -/
def macroExecute (subExec : RunnerName → String → ExecOutcome)
    (action : String) : MacroResult :=
  if isMacroSpec action then
    let steps := runMacroSteps subExec macroSubRunners (splitOnBar (macroBody action))
    { executed := steps.1, errorLogged := steps.2.isSome, rejected := false }
  else
    { executed := [], errorLogged := true, rejected := false }

/-- The runner `macroFindRunnerForAction` selects from `macroSubRunners` for a
given sub-action. -/
def subRunnerFor (a : String) : RunnerName :=
  if isShellish a then RunnerName.shellR else RunnerName.logR

/-- Whether a given runner-behaviour makes sub-action `a` reject when the
macro loop executes it. -/
def subThrowsB (subExec : RunnerName → String → ExecOutcome) (a : String) : Bool :=
  match subExec (subRunnerFor a) a with
  | ExecOutcome.ok => false
  | ExecOutcome.threw _ => true

end PxnCb1

namespace PxnCb1

/-- A one-button catalog used to exercise the pipeline on concrete inputs. -/
def cfgW : Controls :=
  { buttons := [("3", { changes := ["byte1:0->5"], default_name := "Handle Button" })],
    knobs := [], toggles := [], joystick := [] }

instance : IsTotal String tokenLe := by
  constructor
  intro s t
  show lexLe s.data t.data = true ∨ lexLe t.data s.data = true
  generalize s.data = a
  generalize t.data = b
  induction a generalizing b with
  | nil => left; rfl
  | cons x xs ih =>
    cases b with
    | nil => right; rfl
    | cons y ys =>
      by_cases hxy : x = y
      · subst hxy
        rcases ih ys with h | h
        · left; simpa [lexLe] using h
        · right; simpa [lexLe] using h
      · rcases lt_trichotomy x y with h | h | h
        · left; simp [lexLe, hxy, h]
        · exact absurd h hxy
        · right
          have hyx : ¬ y = x := fun e => hxy e.symm
          simp [lexLe, hyx, h]

instance : IsTrans String tokenLe := by
  constructor
  intro s t u hst htu
  show lexLe s.data u.data = true
  have key : ∀ (a b c : List Char), lexLe a b = true → lexLe b c = true →
      lexLe a c = true := by
    intro a
    induction a with
    | nil => intro b c _ _; rfl
    | cons x xs ih =>
      intro b c hab hbc
      cases b with
      | nil => simp [lexLe] at hab
      | cons y ys =>
        cases c with
        | nil => simp [lexLe] at hbc
        | cons z zs =>
          by_cases hxy : x = y <;> by_cases hyz : y = z
          · subst hxy; subst hyz
            simp only [lexLe, if_pos rfl] at hab hbc ⊢
            exact ih ys zs hab hbc
          · subst hxy
            simp only [lexLe, if_pos rfl] at hab
            simp [lexLe, hyz] at hbc
            simp [lexLe, hyz, hbc]
          · subst hyz
            simp [lexLe, hxy] at hab
            simp [lexLe, hxy, hab]
          · simp [lexLe, hxy] at hab
            simp [lexLe, hyz] at hbc
            have hxz : x < z := lt_trans hab hbc
            have hne : ¬ x = z := ne_of_lt hxz
            simp [lexLe, hne, hxz]
  exact key s.data t.data u.data hst htu

instance : IsAntisymm String tokenLe := by
  constructor
  intro s t hst hts
  have key : ∀ (a b : List Char), lexLe a b = true → lexLe b a = true → a = b := by
    intro a
    induction a with
    | nil =>
      intro b hab _
      cases b with
      | nil => rfl
      | cons y ys => simp [lexLe] at *
    | cons x xs ih =>
      intro b hab hba
      cases b with
      | nil => simp [lexLe] at hab
      | cons y ys =>
        by_cases hxy : x = y
        · subst hxy
          simp only [lexLe, if_pos rfl] at hab hba
          rw [ih ys hab hba]
        · have hyx : ¬ y = x := fun e => hxy e.symm
          simp [lexLe, hxy] at hab
          simp [lexLe, hyx] at hba
          exact absurd hba (lt_asymm hab)
  obtain ⟨a⟩ := s
  obtain ⟨b⟩ := t
  show String.mk a = String.mk b
  rw [key a b hst hts]

theorem sortTokens_perm (l : List String) : (sortTokens l).Perm l :=
  List.perm_insertionSort tokenLe l

theorem length_sortTokens (l : List String) : (sortTokens l).length = l.length :=
  (sortTokens_perm l).length_eq

theorem sortTokens_eq_of_perm {a b : List String} (h : a.Perm b) :
    sortTokens a = sortTokens b :=
  List.eq_of_perm_of_sorted ((sortTokens_perm a).trans (h.trans (sortTokens_perm b).symm))
    (List.sorted_insertionSort tokenLe a) (List.sorted_insertionSort tokenLe b)


theorem range_all_getD_iff (l1 l2 : List String) (h : l1.length = l2.length) :
    (((List.range l1.length).all fun i => l1.getD i "" == l2.getD i "") = true) ↔
      l1 = l2 := by
  rw [List.all_eq_true]
  constructor
  · intro H
    apply List.ext_getElem h
    intro i h1 h2
    have hx := H i (List.mem_range.mpr h1)
    rw [List.getD_eq_getElem _ _ h1, List.getD_eq_getElem _ _ h2] at hx
    exact eq_of_beq hx
  · rintro rfl
    intro i _
    simp

theorem changesMatch_eq_true_iff (c a : List String) :
    changesMatch c a = true ↔
      (c.length = a.length ∧ sortTokens c = sortTokens a) := by
  by_cases h : c.length = a.length
  · have hlen : (sortTokens c).length = (sortTokens a).length := by
      rw [length_sortTokens, length_sortTokens, h]
    simp only [changesMatch, if_neg (not_not_intro h)]
    rw [range_all_getD_iff _ _ hlen]
    simp [h]
  · simp [changesMatch, h]

theorem changesMatch_perm_right (c : List String) {a b : List String}
    (h : a.Perm b) : changesMatch c b = changesMatch c a := by
  rw [Bool.eq_iff_iff, changesMatch_eq_true_iff, changesMatch_eq_true_iff,
    h.length_eq, sortTokens_eq_of_perm h]

theorem matchChanges_perm (cfg : Controls) {a b : List String} (h : a.Perm b) :
    matchChanges cfg b = matchChanges cfg a := by
  have hf : ∀ e : ControlChange, changesMatch e.changes b = changesMatch e.changes a :=
    fun e => changesMatch_perm_right _ h
  simp only [matchChanges, hf]

theorem detectChangesAux_eq (prev : List Nat) : ∀ (cur : List Nat) (k : Nat),
    detectChangesAux prev cur k =
      ((List.range (min prev.length cur.length)).filter
        (fun i => prev.getD i 0 != cur.getD i 0)).map
        (fun i => deltaToken (i + k + 1) (prev.getD i 0) (cur.getD i 0)) := by
  induction prev with
  | nil => intro cur k; simp [detectChangesAux]
  | cons p ps ih =>
    intro cur k
    cases cur with
    | nil => simp [detectChangesAux]
    | cons c cs =>
      rw [show detectChangesAux (p :: ps) (c :: cs) k =
        (if p ≠ c then [deltaToken (k + 1) p c] else []) ++ detectChangesAux ps cs (k + 1)
        from rfl]
      rw [ih cs (k + 1)]
      simp only [List.length_cons, Nat.succ_min_succ, List.range_succ_eq_map,
        List.filter_cons, List.getD_cons_zero, List.getD_cons_succ,
        List.filter_map, List.map_map, List.map_cons]
      by_cases hpc : p = c
      · subst hpc
        simp [Function.comp_def]
        intro a _ _ _
        congr 1
        omega
      · simp [Function.comp_def, hpc]
        intro a _ _ _
        congr 1
        omega

/-- Claim C4: the change detector is pure and returns one token per differing
byte index below the common length, carrying the (1-indexed) position and the
correct old and new values, in ascending index order; on equal reports it
returns the empty list. -/
theorem detect_changes_exact :
    (∀ prev cur : List Nat,
      detectChanges prev cur =
        ((List.range (min prev.length cur.length)).filter
          (fun i => prev.getD i 0 != cur.getD i 0)).map
          (fun i => deltaToken (i + 1) (prev.getD i 0) (cur.getD i 0))) ∧
    (∀ R : List Nat, detectChanges R R = []) := by
  constructor
  · intro prev cur
    exact detectChangesAux_eq prev cur 0
  · intro R
    rw [detectChanges, detectChangesAux_eq R R 0]
    simp


/-- Claim C5: a detected change signature matches a catalog entry iff the two change
lists have equal length and are equal once both are sorted (an exact multiset
match); a strict sub-multiset of an entry signature, having fewer tokens,
never matches it. -/
theorem resolution_exact_match (configChanges actualChanges : List String) :
    (changesMatch configChanges actualChanges = true ↔
      (configChanges.length = actualChanges.length ∧
        sortTokens configChanges = sortTokens actualChanges)) ∧
    (actualChanges.Subperm configChanges →
      actualChanges.length < configChanges.length →
      changesMatch configChanges actualChanges = false) := by
  refine ⟨changesMatch_eq_true_iff _ _, fun _ hlt => ?_⟩
  have hne : configChanges.length ≠ actualChanges.length := by omega
  simp [changesMatch, hne]

theorem resolution_exact_match_witness :
    (["byte1:0->5"] : List String).Subperm ["byte1:0->5", "byte2:0->9"] ∧
    changesMatch ["byte1:0->5", "byte2:0->9"] ["byte1:0->5"] = false := by
  have hsub : (["byte1:0->5"] : List String).Subperm ["byte1:0->5", "byte2:0->9"] :=
    (List.Sublist.cons₂ "byte1:0->5" (List.nil_sublist ["byte2:0->9"])).subperm
  exact ⟨hsub,
    (resolution_exact_match ["byte1:0->5", "byte2:0->9"] ["byte1:0->5"]).2 hsub (by decide)⟩

/-- Claim C6: matching is order-independent — permuting the delta list yields the
same resolution result against any catalog. -/
theorem resolution_order_independent (cfg : Controls)
    (changes changes2 : List String) (h : changes.Perm changes2) :
    matchChanges cfg changes2 = matchChanges cfg changes :=
  matchChanges_perm cfg h

theorem resolution_order_independent_witness :
    matchChanges cfgW ["byte2:0->9", "byte1:0->5"] =
      matchChanges cfgW ["byte1:0->5", "byte2:0->9"] :=
  resolution_order_independent cfgW ["byte1:0->5", "byte2:0->9"]
    ["byte2:0->9", "byte1:0->5"] (by decide)

/-- Claim C7: a report whose length is not 6 bypasses the decoding pipeline: the
stored snapshot is returned unchanged and the event carries an all-false
button-state array (no control resolved, no error). -/
theorem wrong_length_bypassed (cfg : Controls) (prev : List Nat) (now : Nat)
    (data : List Nat) (h : data.length ≠ 6) :
    parse cfg prev now data =
      (prev,
        { timestamp := now, buttonStates := List.replicate 8 false,
          rawData := data, deviceId := "pxn-cb1" }) := by
  simp [parse, h]

theorem wrong_length_bypassed_witness :
    parse cfgW [1, 64, 0, 0, 0, 0] 7 [] =
      ([1, 64, 0, 0, 0, 0],
        { timestamp := 7, buttonStates := List.replicate 8 false,
          rawData := [], deviceId := "pxn-cb1" }) :=
  wrong_length_bypassed cfgW [1, 64, 0, 0, 0, 0] 7 [] (by decide)

theorem detectChanges_self (R : List Nat) : detectChanges R R = [] := by
  rw [detectChanges, detectChangesAux_eq R R 0]
  simp

theorem changesMatch_nil_right (c : List String) (h : c ≠ []) :
    changesMatch c [] = false := by
  have hlen : c.length ≠ ([] : List String).length := by
    simp only [List.length_nil]
    exact fun hf => h (List.length_eq_zero.mp hf)
  simp only [changesMatch]
  rw [if_pos hlen]

theorem matchChanges_nil (cfg : Controls)
    (hne : ∀ c ∈ catalogEntries cfg, c.changes ≠ []) :
    matchChanges cfg [] = none := by
  have hAll : ∀ e ∈ catalogEntries cfg, ¬ changesMatch e.changes [] = true :=
    fun e he => by simp [changesMatch_nil_right e.changes (hne e he)]
  have h1 : ∀ e ∈ cfg.buttons.map (·.2), ¬ changesMatch e.changes [] = true :=
    fun e he => hAll e (by
      simp only [catalogEntries]
      exact List.mem_append.mpr (Or.inl (List.mem_append.mpr
        (Or.inl (List.mem_append.mpr (Or.inl he))))))
  have h2 : ∀ e ∈ knobEntries cfg, ¬ changesMatch e.changes [] = true :=
    fun e he => hAll e (by
      simp only [catalogEntries]
      exact List.mem_append.mpr (Or.inl (List.mem_append.mpr
        (Or.inl (List.mem_append.mpr (Or.inr he))))))
  have h3 : ∀ e ∈ toggleEntries cfg, ¬ changesMatch e.changes [] = true :=
    fun e he => hAll e (by
      simp only [catalogEntries]
      exact List.mem_append.mpr (Or.inl (List.mem_append.mpr (Or.inr he))))
  have h4 : ∀ e ∈ cfg.joystick.map (·.2), ¬ changesMatch e.changes [] = true :=
    fun e he => hAll e (by
      simp only [catalogEntries]
      exact List.mem_append.mpr (Or.inr he))
  simp only [matchChanges, List.find?_eq_none.mpr h1, List.find?_eq_none.mpr h2,
    List.find?_eq_none.mpr h3, List.find?_eq_none.mpr h4]

/-- Claim C9: when a 6-byte report equals the stored snapshot, the delta list is
empty; provided every catalog entry has a non-empty change list, no control is
resolved, the event's button states are all false, and the snapshot is
(re)stored. -/
theorem zero_delta_no_control (cfg : Controls) (prev : List Nat) (now : Nat)
    (data : List Nat) (h6 : data.length = 6) (hprev : prev = data)
    (hne : ∀ c ∈ catalogEntries cfg, c.changes ≠ []) :
    matchChanges cfg (detectChanges prev data) = none ∧
    parse cfg prev now data =
      (data,
        { timestamp := now, buttonStates := List.replicate 8 false,
          rawData := data, deviceId := "pxn-cb1" }) := by
  have hdet : detectChanges prev data = [] := by
    rw [hprev]; exact detectChanges_self data
  have hmatch : matchChanges cfg (detectChanges prev data) = none := by
    rw [hdet]; exact matchChanges_nil cfg hne
  refine ⟨hmatch, ?_⟩
  simp [parse, h6, hmatch]

theorem zero_delta_no_control_witness :
    matchChanges cfgW (detectChanges [1, 64, 0, 0, 0, 0] [1, 64, 0, 0, 0, 0]) = none ∧
    parse cfgW [1, 64, 0, 0, 0, 0] 5 [1, 64, 0, 0, 0, 0] =
      ([1, 64, 0, 0, 0, 0],
        { timestamp := 5, buttonStates := List.replicate 8 false,
          rawData := [1, 64, 0, 0, 0, 0], deviceId := "pxn-cb1" }) :=
  zero_delta_no_control cfgW [1, 64, 0, 0, 0, 0] 5 [1, 64, 0, 0, 0, 0]
    (by decide) (by decide) (by decide)


theorem replicate_false_getD (i : Nat) :
    (List.replicate 8 false).getD i false = false := by
  by_cases hi : i < 8
  · rw [List.getD_eq_getElem _ _ (by simpa using hi)]
    simp only [List.getElem_replicate]
  · rw [List.getD_eq_default _ _ (by simpa using Nat.le_of_not_lt hi)]

theorem set_replicate_getD (k i : Nat) (hk : k < 8) :
    (((List.replicate 8 false).set k true).getD i false = true) ↔ i = k := by
  by_cases hi : i < 8
  · rw [List.getD_eq_getElem _ _ (by simpa using hi)]
    rw [List.getElem_set]
    by_cases hik : k = i
    · simp [hik]
    · simp only [if_neg hik, List.getElem_replicate]
      constructor
      · intro hfalse; cases hfalse
      · intro he; exact absurd he.symm hik
  · rw [List.getD_eq_default _ _ (by simpa using Nat.le_of_not_lt hi)]
    constructor
    · intro hfalse; cases hfalse
    · intro he; omega

/-- Claim C10: every event produced by `parse` has exactly 8 button slots, at most
one of which is true; a true slot's index is the button index found for the
matched control and lies in `[0, 8)`. -/
theorem parse_button_invariant (cfg : Controls) (prev : List Nat) (now : Nat)
    (data : List Nat) :
    (parse cfg prev now data).2.buttonStates.length = 8 ∧
    (∀ i j : Nat,
      (parse cfg prev now data).2.buttonStates.getD i false = true →
      (parse cfg prev now data).2.buttonStates.getD j false = true → i = j) ∧
    (∀ i : Nat, (parse cfg prev now data).2.buttonStates.getD i false = true →
      ∃ c, matchChanges cfg (detectChanges prev data) = some c ∧
        findButtonIndexForControl cfg.buttons c = some (i : Int) ∧ i < 8) := by
  by_cases h6 : data.length ≠ 6
  · simp only [parse, if_pos h6]
    refine ⟨by simp, ?_, ?_⟩
    · intro i j hi _
      rw [replicate_false_getD] at hi
      cases hi
    · intro i hi
      rw [replicate_false_getD] at hi
      cases hi
  · simp only [parse, if_neg h6]
    cases hm : matchChanges cfg (detectChanges prev data) with
    | none =>
      simp only [hm]
      refine ⟨by simp, ?_, ?_⟩
      · intro i j hi _
        rw [replicate_false_getD] at hi
        cases hi
      · intro i hi
        rw [replicate_false_getD] at hi
        cases hi
    | some control =>
      simp only [hm]
      cases hidx : findButtonIndexForControl cfg.buttons control with
      | none =>
        simp only [hidx]
        refine ⟨by simp, ?_, ?_⟩
        · intro i j hi _
          rw [replicate_false_getD] at hi
          cases hi
        · intro i hi
          rw [replicate_false_getD] at hi
          cases hi
      | some idx =>
        simp only [hidx]
        by_cases hrange : 0 ≤ idx ∧ idx < 8
        · rw [if_pos hrange]
          have hk : idx.toNat < 8 := by omega
          refine ⟨by simp, ?_, ?_⟩
          · intro i j hi hj
            rw [set_replicate_getD _ _ hk] at hi hj
            omega
          · intro i hi
            rw [set_replicate_getD _ _ hk] at hi
            refine ⟨control, rfl, ?_, by omega⟩
            rw [hidx]
            congr 1
            omega
        · rw [if_neg hrange]
          refine ⟨by simp, ?_, ?_⟩
          · intro i j hi _
            rw [replicate_false_getD] at hi
            cases hi
          · intro i hi
            rw [replicate_false_getD] at hi
            cases hi

theorem parse_button_invariant_witness :
    ∃ c, matchChanges cfgW (detectChanges [0, 0, 0, 0, 0, 0] [5, 0, 0, 0, 0, 0]) = some c ∧
      findButtonIndexForControl cfgW.buttons c = some ((3 : Nat) : Int) ∧ (3 : Nat) < 8 :=
  (parse_button_invariant cfgW [0, 0, 0, 0, 0, 0] 0 [5, 0, 0, 0, 0, 0]).2.2 3 (by decide)

/-- Claim C3: `processButtonStates` triggers the action for index `i` iff the
event's button state at `i` is true and the last recorded state at `i` is
false — exactly the false-to-true edges, never sustained true or a
transition to false. -/
theorem edge_trigger_iff (lastStates : List Bool) (event : ParsedEvent) (i : Nat) :
    i ∈ (processButtonStates lastStates event).1 ↔
      (event.buttonStates.getD i false = true ∧ lastStates.getD i false = false) := by
  simp only [processButtonStates, pressedIndices, List.mem_filter, List.mem_range]
  constructor
  · rintro ⟨_, hcond⟩
    rw [Bool.and_eq_true] at hcond
    exact ⟨hcond.1, by simpa using hcond.2⟩
  · rintro ⟨hc, hp⟩
    constructor
    · have hlt : i < event.buttonStates.length := by
        by_contra hge
        rw [List.getD_eq_default _ _ (Nat.le_of_not_lt hge)] at hc
        cases hc
      exact lt_of_lt_of_le hlt (le_max_left _ _)
    · rw [Bool.and_eq_true]
      refine ⟨hc, ?_⟩
      rw [hp]
      rfl


theorem edge_trigger_iff_witness :
    1 ∈ (processButtonStates [true, false]
      { timestamp := 0, buttonStates := [true, true], rawData := [], deviceId := "pxn-cb1" }).1 ∧
    ¬ 0 ∈ (processButtonStates [true, false]
      { timestamp := 0, buttonStates := [true, true], rawData := [], deviceId := "pxn-cb1" }).1 := by
  constructor
  · exact (edge_trigger_iff [true, false]
      { timestamp := 0, buttonStates := [true, true], rawData := [], deviceId := "pxn-cb1" } 1).mpr
      (by decide)
  · intro hmem
    have h := (edge_trigger_iff [true, false]
      { timestamp := 0, buttonStates := [true, true], rawData := [], deviceId := "pxn-cb1" } 0).mp hmem
    revert h
    decide

theorem dmRun_recvs (cfg : Controls) (rs : List (Nat × List Nat)) :
    ∀ (s : DMState) (tail : List DMStep),
    dmRun cfg s ((rs.map fun r => DMStep.recv r.1 r.2) ++ tail) =
      dmRun cfg (rs.foldl (fun st r => handleDeviceData cfg st r.1 r.2) s) tail := by
  induction rs with
  | nil => intro s tail; rfl
  | cons r rs ih =>
    intro s tail
    simp only [List.map_cons, List.cons_append, dmRun, List.foldl_cons]
    exact ih _ _

theorem foldl_handle_parserPrev (cfg : Controls) (rs : List (Nat × List Nat)) :
    ∀ s : DMState,
    (rs.foldl (fun st r => handleDeviceData cfg st r.1 r.2) s).parserPrev =
      foldPrev cfg s.parserPrev rs := by
  induction rs with
  | nil => intro s; rfl
  | cons r rs ih =>
    intro s
    simp only [List.foldl_cons, foldPrev]
    rw [ih]
    rfl

/-- Claim C2: a newly processed report replaces any pending debounce notification
with one carrying the event just parsed, and a burst of reports followed by a
quiet period fires exactly one notification, the one for the last report of
the burst (parsed against the snapshot accumulated over the earlier reports). -/
theorem debounce_replaces (cfg : Controls) (s0 : DMState)
    (rs : List (Nat × List Nat)) (r : Nat × List Nat) :
    ((handleDeviceData cfg s0 r.1 r.2).pending =
      some (parse cfg s0.parserPrev r.1 r.2).2) ∧
    (dmRun cfg s0 (((rs ++ [r]).map fun q => DMStep.recv q.1 q.2) ++ [DMStep.fire])).2 =
      [(parse cfg (foldPrev cfg s0.parserPrev rs) r.1 r.2).2] := by
  refine ⟨rfl, ?_⟩
  rw [dmRun_recvs, List.foldl_append]
  simp only [List.foldl_cons, List.foldl_nil]
  rw [← foldl_handle_parserPrev cfg rs s0]
  rfl


theorem macroFind_eq (a : String) :
    macroFindRunnerForAction macroSubRunners a = some (subRunnerFor a) := by
  by_cases h : isShellish a
  · simp only [macroFindRunnerForAction, subRunnerFor, if_pos h]
    rfl
  · simp only [macroFindRunnerForAction, subRunnerFor, if_neg h]
    rfl

theorem runMacroSteps_ok (f : RunnerName → String → ExecOutcome) :
    ∀ subs : List String, (∀ a ∈ subs, subThrowsB f a = false) →
      runMacroSteps f macroSubRunners subs = (subs, none) := by
  intro subs
  induction subs with
  | nil => intro _; rfl
  | cons a rest ih =>
    intro h
    have ha : subThrowsB f a = false := h a (List.mem_cons_self _ _)
    simp only [runMacroSteps, macroFind_eq]
    cases hfa : f (subRunnerFor a) a with
    | ok =>
      rw [ih (fun b hb => h b (List.mem_cons_of_mem a hb))]
    | threw m =>
      exfalso
      rw [subThrowsB, hfa] at ha
      cases ha

theorem runMacroSteps_throw (f : RunnerName → String → ExecOutcome) :
    ∀ (p : List String) (a : String) (q : List String),
      (∀ b ∈ p, subThrowsB f b = false) → subThrowsB f a = true →
      (runMacroSteps f macroSubRunners (p ++ a :: q)).1 = p ++ [a] ∧
      (runMacroSteps f macroSubRunners (p ++ a :: q)).2.isSome = true := by
  intro p
  induction p with
  | nil =>
    intro a q _ ha
    simp only [List.nil_append, runMacroSteps, macroFind_eq]
    cases hfa : f (subRunnerFor a) a with
    | ok =>
      exfalso
      rw [subThrowsB, hfa] at ha
      cases ha
    | threw m => simp
  | cons b p ih =>
    intro a q hp ha
    have hb : subThrowsB f b = false := hp b (List.mem_cons_self _ _)
    have ihr := ih a q (fun x hx => hp x (List.mem_cons_of_mem b hx)) ha
    simp only [List.cons_append, runMacroSteps, macroFind_eq]
    cases hfb : f (subRunnerFor b) b with
    | ok =>
      simp only []
      refine ⟨?_, ?_⟩
      · simp [ihr.1]
      · simpa using ihr.2
    | threw m =>
      exfalso
      rw [subThrowsB, hfb] at hb
      cases hb

/-- Claim C1 as amended: a macro actionSpec splits the remainder after `macro:` on
`|` into ordered sub-actions executed sequentially; the macro never rejects
(its `catch` logs any error), and when no sub-action rejects all of them
execute in order; but since the `catch` wraps the whole loop, a sub-action
that rejects is the last one executed — the remaining sub-actions are
abandoned. -/
theorem macro_throw_aborts_rest (f : RunnerName → String → ExecOutcome)
    (action : String) (h : isMacroSpec action = true) :
    (macroExecute f action).rejected = false ∧
    ((∀ a ∈ splitOnBar (macroBody action), subThrowsB f a = false) →
      (macroExecute f action).executed = splitOnBar (macroBody action) ∧
      (macroExecute f action).errorLogged = false) ∧
    (∀ (p : List String) (a : String) (q : List String),
      splitOnBar (macroBody action) = p ++ a :: q →
      (∀ b ∈ p, subThrowsB f b = false) → subThrowsB f a = true →
      (macroExecute f action).executed = p ++ [a] ∧
      (macroExecute f action).errorLogged = true) := by
  refine ⟨by simp [macroExecute, h], ?_, ?_⟩
  · intro hok
    simp only [macroExecute, if_pos h]
    rw [runMacroSteps_ok f _ hok]
    exact ⟨rfl, rfl⟩
  · intro p a q hsplit hp ha
    simp only [macroExecute, if_pos h, hsplit]
    have hr := runMacroSteps_throw f p a q hp ha
    exact ⟨hr.1, by simpa using hr.2⟩

theorem macro_throw_aborts_rest_witness :
    (macroExecute
        (fun _ a => if a = "alpha" then ExecOutcome.threw "boom" else ExecOutcome.ok)
        "macro:alpha|beta").executed = ["alpha"] ∧
    (macroExecute
        (fun _ a => if a = "alpha" then ExecOutcome.threw "boom" else ExecOutcome.ok)
        "macro:alpha|beta").errorLogged = true := by
  have h := (macro_throw_aborts_rest
      (fun _ a => if a = "alpha" then ExecOutcome.threw "boom" else ExecOutcome.ok)
      "macro:alpha|beta" (by decide)).2.2 [] "alpha" ["beta"]
      (by decide) (by decide) (by decide)
  exact ⟨h.1, h.2⟩

/-- Counterexample to claim C1: with a sub-runner behaviour that makes the first
sub-action reject, the error is logged and the macro does not reject, but the
second sub-action is never executed — refuting the claim that a failure does
not prevent the remaining sub-actions from executing. -/
theorem macro_throw_aborts_rest_cex :
    (macroExecute
        (fun _ a => if a = "alpha" then ExecOutcome.threw "boom" else ExecOutcome.ok)
        "macro:alpha|beta").errorLogged = true ∧
    (macroExecute
        (fun _ a => if a = "alpha" then ExecOutcome.threw "boom" else ExecOutcome.ok)
        "macro:alpha|beta").rejected = false ∧
    "beta" ∈ splitOnBar (macroBody "macro:alpha|beta") ∧
    ¬ "beta" ∈ (macroExecute
        (fun _ a => if a = "alpha" then ExecOutcome.threw "boom" else ExecOutcome.ok)
        "macro:alpha|beta").executed := by decide

/-- Claim C8 as amended: top-level routing checks the `macro:` prefix, then the
space / `/` / `\\` shell heuristic, then defaults to the log runner — but a
macro's sub-actions are routed with only the shell heuristic (the macro
prefix is not re-checked, and the macro runner is not among the sub-runners). -/
theorem routing_policy (action : String) :
    registryFindRunnerForAction registryRunners action =
      some (if isMacroSpec action then RunnerName.macroR
        else if isShellish action then RunnerName.shellR else RunnerName.logR) ∧
    macroFindRunnerForAction macroSubRunners action =
      some (if isShellish action then RunnerName.shellR else RunnerName.logR) := by
  constructor
  · by_cases h1 : isMacroSpec action
    · simp only [registryFindRunnerForAction, if_pos h1]
      rfl
    · by_cases h2 : isShellish action
      · simp only [registryFindRunnerForAction, if_neg h1, if_pos h2]
        rfl
      · simp only [registryFindRunnerForAction, if_neg h1, if_neg h2]
        rfl
  · by_cases h2 : isShellish action
    · simp only [macroFindRunnerForAction, if_pos h2]
      rfl
    · simp only [macroFindRunnerForAction, if_neg h2]
      rfl

/-- Counterexample to claim C8: the sub-action `"macro:log"` starts with the macro
prefix yet the macro runner's routing sends it to the log runner, not the
macro runner — sub-actions are not routed by the same policy recursively. -/
theorem routing_policy_cex :
    isMacroSpec "macro:log" = true ∧
    macroFindRunnerForAction macroSubRunners "macro:log" = some RunnerName.logR ∧
    ¬ macroFindRunnerForAction macroSubRunners "macro:log" = some RunnerName.macroR := by
  decide

end PxnCb1
